import Mathlib

/-!
Formal model of the rustmerger streaming merge-deduplication engine.

The definitions below are a shallow embedding of the program's core
(src/core.rs, src/progress.rs, src/app_state.rs, src/signal_handler.rs,
src/encoding/mod.rs, src/encoding/detector.rs):

* file contents are lists of bytes (`List Nat`, each < 256);
* the `tokio` buffered reader's `read_until(b'\n', ..)` is modelled by
  `splitChunks`, which cuts a byte list into chunks, each chunk keeping its
  trailing newline byte when one is present;
* Rust's `HashSet<String>` is modelled as `Finset (List Char)` (a line is a
  list of characters); `String::from_utf8` is modelled by the faithful
  UTF-8 decoder `utf8Decode`; `str::trim` by `trimRust`;
* the progress checkpoint (`Progress` in src/progress.rs) is modelled with
  paths as `String`, the serialized JSON document as an explicit `Json`
  tree, and the filesystem that checkpoints are written to as a partial map
  `Storage`;
* fallible Rust functions returning `anyhow::Result` are modelled with
  `Except Unit` / `Option`.
-/

namespace Rustmerger

/-! ### Constants from src/core.rs and src/encoding/detector.rs -/

/-- `CHUNK_SIZE` from src/core.rs: 10MB chunks. -/
def CHUNK_SIZE : Nat := 1024 * 1024 * 10

/-- `DETECTION_SAMPLE_SIZE` from src/encoding/detector.rs (8KB sample). -/
def DETECTION_SAMPLE_SIZE : Nat := 8192

/-- `MAX_DETECTION_FILE_SIZE` from src/encoding/detector.rs (100MB). -/
def MAX_DETECTION_FILE_SIZE : Nat := 100 * 1024 * 1024

/-! ### Text primitives: Rust `char::is_whitespace`, `str::trim`,
`String::from_utf8` -/

/-- Rust `char::is_whitespace`: the Unicode `White_Space` property. -/
def isRustWhitespace (c : Char) : Bool :=
  decide ((0x09 ≤ c.toNat ∧ c.toNat ≤ 0x0D) ∨ c.toNat = 0x20 ∨
    c.toNat = 0x85 ∨ c.toNat = 0xA0 ∨ c.toNat = 0x1680 ∨
    (0x2000 ≤ c.toNat ∧ c.toNat ≤ 0x200A) ∨ c.toNat = 0x2028 ∨
    c.toNat = 0x2029 ∨ c.toNat = 0x202F ∨ c.toNat = 0x205F ∨
    c.toNat = 0x3000)

/-- Rust `str::trim`: remove leading and trailing whitespace. -/
def trimRust (l : List Char) : List Char :=
  ((l.dropWhile isRustWhitespace).reverse.dropWhile isRustWhitespace).reverse

/-- Faithful model of `String::from_utf8` (and `std::str::from_utf8`):
decode a byte list as UTF-8, rejecting truncated sequences, overlong
encodings, surrogates and out-of-range code points. -/
def utf8Decode : List Nat → Option (List Char)
  | [] => some []
  | b1 :: rest =>
    if b1 < 0x80 then
      match utf8Decode rest with
      | some cs => some (Char.ofNat b1 :: cs)
      | none => none
    else if 0xC2 ≤ b1 ∧ b1 ≤ 0xDF then
      match rest with
      | b2 :: rest2 =>
        if 0x80 ≤ b2 ∧ b2 ≤ 0xBF then
          match utf8Decode rest2 with
          | some cs => some (Char.ofNat ((b1 - 0xC0) * 64 + (b2 - 0x80)) :: cs)
          | none => none
        else none
      | [] => none
    else if 0xE0 ≤ b1 ∧ b1 ≤ 0xEF then
      match rest with
      | b2 :: b3 :: rest3 =>
        if ((b1 = 0xE0 ∧ 0xA0 ≤ b2 ∧ b2 ≤ 0xBF) ∨
            (0xE1 ≤ b1 ∧ b1 ≤ 0xEC ∧ 0x80 ≤ b2 ∧ b2 ≤ 0xBF) ∨
            (b1 = 0xED ∧ 0x80 ≤ b2 ∧ b2 ≤ 0x9F) ∨
            (0xEE ≤ b1 ∧ b1 ≤ 0xEF ∧ 0x80 ≤ b2 ∧ b2 ≤ 0xBF)) ∧
           (0x80 ≤ b3 ∧ b3 ≤ 0xBF) then
          match utf8Decode rest3 with
          | some cs =>
            some (Char.ofNat ((b1 - 0xE0) * 4096 + (b2 - 0x80) * 64 + (b3 - 0x80)) :: cs)
          | none => none
        else none
      | _ => none
    else if 0xF0 ≤ b1 ∧ b1 ≤ 0xF4 then
      match rest with
      | b2 :: b3 :: b4 :: rest4 =>
        if ((b1 = 0xF0 ∧ 0x90 ≤ b2 ∧ b2 ≤ 0xBF) ∨
            (0xF1 ≤ b1 ∧ b1 ≤ 0xF3 ∧ 0x80 ≤ b2 ∧ b2 ≤ 0xBF) ∨
            (b1 = 0xF4 ∧ 0x80 ≤ b2 ∧ b2 ≤ 0x8F)) ∧
           (0x80 ≤ b3 ∧ b3 ≤ 0xBF) ∧ (0x80 ≤ b4 ∧ b4 ≤ 0xBF) then
          match utf8Decode rest4 with
          | some cs =>
            some (Char.ofNat ((b1 - 0xF0) * 262144 + (b2 - 0x80) * 4096 +
              (b3 - 0x80) * 64 + (b4 - 0x80)) :: cs)
          | none => none
        else none
      | _ => none
    else none

/-! ### `read_until` chunking (src/core.rs `process_large_file` read loop) -/

/-- Model of repeatedly calling `reader.read_until(b'\n', &mut buffer)`
until it returns 0: the byte stream is cut into chunks, each chunk ending
with the newline byte 10 when one was found; a final unterminated chunk
keeps no delimiter.  The empty file yields no chunks. -/
def splitChunks (content : List Nat) : List (List Nat) :=
  let st := content.foldl
    (fun (acc : List (List Nat) × List Nat) b =>
      if b = 10 then (acc.1 ++ [acc.2 ++ [10]], []) else (acc.1, acc.2 ++ [b]))
    ([], [])
  if st.2 = [] then st.1 else st.1 ++ [st.2]

/-- The line that `process_large_file` extracts from one `read_until`
chunk (src/core.rs lines 221-235): when the buffer is nonempty, its final
byte is removed (`buffer[..n - 1]`), the remainder is parsed as UTF-8
(`String::from_utf8`, silently skipping the chunk on failure), trimmed,
and kept only when nonempty. -/
def chunkLine (c : List Nat) : Option (List Char) :=
  if c = [] then none
  else
    match utf8Decode c.dropLast with
    | some d =>
      let t := trimRust d
      if t = [] then none else some t
    | none => none

/-! ### `process_large_file` batching loop (src/core.rs lines 187-254) -/

/-- State of the `process_large_file` loop.  `seen` is ghost
instrumentation recording, for every chunk, the pair (current set before
the insertion step, current set after it); it has no influence on the
other fields and exists only so that the batch-size invariant can be
stated about every intermediate set. -/
structure PlfState where
  batches : List (Finset (List Char))
  cur : Finset (List Char)
  bytesProcessed : Nat
  totalLines : Nat
  seen : List (Finset (List Char) × Finset (List Char))

/-- The current set right after the insertion step of one loop
iteration: the chunk's extracted line, if any, inserted into the current
set. -/
def plfCur1 (st : PlfState) (c : List Nat) : Finset (List Char) :=
  match chunkLine c with
  | some t => insert t st.cur
  | none => st.cur

/-- `total_lines` right after one loop iteration. -/
def plfLines1 (st : PlfState) (c : List Nat) : Nat :=
  match chunkLine c with
  | some _ => st.totalLines + 1
  | none => st.totalLines

/-- One iteration of the `process_large_file` read loop for one chunk
`c`: account the `n = c.length` bytes read, insert the extracted trimmed
line (if any) into the current set, then, when
`bytes_processed >= CHUNK_SIZE` or `current_set.len() >= chunk_size`,
send the set to the channel and start a fresh one (resetting the byte
counter). -/
def plfStep (chunkSize : Nat) (st : PlfState) (c : List Nat) : PlfState :=
  if CHUNK_SIZE ≤ st.bytesProcessed + c.length ∨ chunkSize ≤ (plfCur1 st c).card then
    ⟨st.batches ++ [plfCur1 st c], ∅, 0, plfLines1 st c,
      st.seen ++ [(st.cur, plfCur1 st c)]⟩
  else
    ⟨st.batches, plfCur1 st c, st.bytesProcessed + c.length, plfLines1 st c,
      st.seen ++ [(st.cur, plfCur1 st c)]⟩

/-- Initial loop state of `process_large_file`. -/
def plfInit : PlfState := ⟨[], ∅, 0, 0, []⟩

/-- The full `process_large_file` read loop over the converted byte
content of one file. -/
def processLargeFile (content : List Nat) (chunkSize : Nat) : PlfState :=
  (splitChunks content).foldl (plfStep chunkSize) plfInit

/-- The batches `process_large_file` hands to the channel, including the
final `if !current_set.is_empty() { tx.send(current_set) }`. -/
def plfBatches (content : List Nat) (chunkSize : Nat) :
    List (Finset (List Char)) :=
  let st := processLargeFile content chunkSize
  if st.cur = ∅ then st.batches else st.batches ++ [st.cur]

/-- Union of a list of batches, as folded up by the writer task of
`merge_and_deduplicate` (`final_set.extend(chunk_set.drain())`). -/
def batchUnion (l : List (Finset (List Char))) : Finset (List Char) :=
  l.foldl (fun a b => a ∪ b) ∅

/-- All lines one file contributes to the deduplicated set. -/
def plfUnion (content : List Nat) (chunkSize : Nat) : Finset (List Char) :=
  batchUnion (plfBatches content chunkSize)

/-- The final deduplicated set built by `merge_and_deduplicate`'s writer
task from the batches of every successfully read input file (`contents`
lists their converted byte contents; files whose `process_large_file`
call fails are skipped by the `if let Ok` and contribute nothing).  The
writer folds batches in channel-arrival order; since `Finset` union is
associative and commutative, folding file by file is the same set. -/
def mergeOutput (contents : List (List Nat)) (chunkSize : Nat) :
    Finset (List Char) :=
  contents.foldl (fun acc f => acc ∪ plfUnion f chunkSize) ∅

/-- Specification-side definition (from the spec's words, for comparison
with the code): the lines of a decoded file are the newline-delimited
segments of its content, delimiter excluded, each trimmed, with empty
lines discarded. -/
def spec_file_lines (content : List Nat) : List (List Char) :=
  ((splitChunks content).map
    (fun c => if c.getLast? = some 10 then c.dropLast else c)).filterMap
    (fun l =>
      match utf8Decode l with
      | some d =>
        let t := trimRust d
        if t = [] then none else some t
      | none => none)

/-- `batch_size` as computed in `merge_and_deduplicate` (src/core.rs
lines 113-115) from the memory query: `mem_info.avail` kilobytes, halved,
divided by `size_of::<String>()` (24 bytes on a 64-bit target), capped at
`CHUNK_SIZE`. -/
def computeBatchSize (availKB : Nat) : Nat :=
  min (availKB * 1024 / 2 / 24) CHUNK_SIZE

/-! ### Checkpoint state (src/progress.rs) -/

/-- `Progress` from src/progress.rs: the checkpoint record.  Paths are
modelled as strings. -/
structure Progress where
  input_file : String
  output_file : String
  threads : Nat
  processed_files : List String
  current_position : Nat
  save_path : Option String
deriving DecidableEq

/-- `Progress::default()` (src/progress.rs lines 66-77): empty paths, 10
threads, no processed files, position 0, and no save path. -/
def Progress.defaultState : Progress := ⟨"", "", 10, [], 0, none⟩

/-- JSON documents, as produced by `serde_json::to_string_pretty` and
consumed by `serde_json::from_str`.  The model works on the JSON tree;
pretty-printing to text and parsing back is the identity on this tree. -/
inductive Json where
  | str (s : String)
  | num (n : Nat)
  | arr (xs : List Json)
  | obj (fields : List (String × Json))
  | null

/-- Field lookup in a JSON object, as serde does when deserializing a
derived struct. -/
def jsonLookup : List (String × Json) → String → Option Json
  | [], _ => none
  | (k, v) :: rest, key => if k = key then some v else jsonLookup rest key

/-- Serialization of an optional path (`Option<PathBuf>` in serde:
`None` becomes JSON null, `Some p` the path string). -/
def encodeOptPath : Option String → Json
  | none => Json.null
  | some p => Json.str p

/-- Serde serialization of `Progress` (derive `Serialize`): a JSON object
with the six fields in declaration order. -/
def encodeProgress (st : Progress) : Json :=
  Json.obj [(keyInput, Json.str st.input_file),
    (keyOutput, Json.str st.output_file),
    (keyThreads, Json.num st.threads),
    (keyProcessed, Json.arr (st.processed_files.map Json.str)),
    (keyPosition, Json.num st.current_position),
    (keySavePath, encodeOptPath st.save_path)]
where
  keyInput : String := "input_file"
  keyOutput : String := "output_file"
  keyThreads : String := "threads"
  keyProcessed : String := "processed_files"
  keyPosition : String := "current_position"
  keySavePath : String := "save_path"

/-- Deserialization of a path string. -/
def decodeStr : Json → Option String
  | Json.str s => some s
  | _ => none

/-- Deserialization of a natural-number field. -/
def decodeNum : Json → Option Nat
  | Json.num n => some n
  | _ => none

/-- Deserialization of a list of path strings, in order. -/
def decodeStrList : List Json → Option (List String)
  | [] => some []
  | x :: rest =>
    match decodeStr x, decodeStrList rest with
    | some s, some l => some (s :: l)
    | _, _ => none

/-- Deserialization of `processed_files`. -/
def decodePathList : Json → Option (List String)
  | Json.arr xs => decodeStrList xs
  | _ => none

/-- Deserialization of `save_path` (`Option<PathBuf>`). -/
def decodeOptPath : Json → Option (Option String)
  | Json.null => some none
  | Json.str s => some (some s)
  | _ => none

/-- Serde deserialization of `Progress` (derive `Deserialize`): look up
all six fields of the JSON object and decode each; any missing or
ill-typed field fails the whole parse. -/
def decodeProgress (j : Json) : Option Progress :=
  match j with
  | Json.obj fields =>
    match jsonLookup fields encodeProgress.keyInput,
      jsonLookup fields encodeProgress.keyOutput,
      jsonLookup fields encodeProgress.keyThreads,
      jsonLookup fields encodeProgress.keyProcessed,
      jsonLookup fields encodeProgress.keyPosition,
      jsonLookup fields encodeProgress.keySavePath with
    | some ji, some jo, some jt, some jp, some jc, some js =>
      match decodeStr ji, decodeStr jo, decodeNum jt, decodePathList jp,
        decodeNum jc, decodeOptPath js with
      | some i, some o, some t, some pl, some c, some sp =>
        some ⟨i, o, t, pl, c, sp⟩
      | _, _, _, _, _, _ => none
    | _, _, _, _, _, _ => none
  | _ => none

/-- The durable storage checkpoints are written to: a partial map from
paths to the JSON documents stored there. -/
def Storage : Type := String → Option Json

/-- `Progress::save` (src/progress.rs lines 81-89): `if let Some(path) =
&self.save_path`, serialize the state and write it to that path;
otherwise do nothing. -/
def Progress.save (st : Progress) (σ : Storage) : Storage :=
  match st.save_path with
  | some p => fun q => if q = p then some (encodeProgress st) else σ q
  | none => σ

/-- `Progress::load` (src/progress.rs lines 92-100): read the document at
`path`, parse it into a `Progress`, and re-attach the save path
(`progress.save_path = Some(path)`). -/
def Progress.load (p : String) (σ : Storage) : Option Progress :=
  match σ p with
  | none => none
  | some content =>
    match decodeProgress content with
    | none => none
    | some pr => some { pr with save_path := some p }

/-! ### The processing loop (src/core.rs `ProcessingCore::process` and
`process_single_file`) -/

/-- The file-processing loop of `ProcessingCore::process` (src/core.rs
lines 76-94) combined with `process_single_file` (lines 263-322), acting
on the progress record.  `shutdown` is the value of the shared
`shutdown_requested` flag, polled at the start of each file (it is
constant here because nothing in the modelled scenario changes it
mid-loop).  `lineCount f` is the number of lines counted for file `f` by
`count_lines_with_encoding`; `none` models a per-file detection or read
error, which is logged and skips the file.  For each non-skipped file the
loop appends the path to `processed_files`, adds its line count to
`current_position`, and calls `save` (which does not change the record
itself).  No membership test against `processed_files` is made anywhere
in the loop. -/
def processFiles (shutdown : Bool) (lineCount : String → Option Nat)
    (files : List String) (st : Progress) : Progress :=
  if shutdown then st
  else
    files.foldl
      (fun acc f =>
        match lineCount f with
        | none => acc
        | some n =>
          { acc with processed_files := acc.processed_files ++ [f],
                     current_position := acc.current_position + n })
      st

/-! ### Shutdown coordination (src/signal_handler.rs, src/app_state.rs,
src/main.rs) -/

/-- The shared run state observed by the signal handlers: the progress
record behind its lock, the checkpoint storage, the shared
`shutdown_requested` flag of `AppState`, and whether a message was sent
on the `SignalHandler` broadcast channel. -/
structure SysState where
  progress : Progress
  storage : Storage
  shutdownRequested : Bool
  broadcastSent : Bool

/-- `AppState::should_shutdown` (src/app_state.rs lines 53-55): read the
shared `shutdown_requested` flag. -/
def should_shutdown (st : SysState) : Bool := st.shutdownRequested

/-- The Ctrl+C closure installed by `SignalHandler::setup_handlers`
(src/signal_handler.rs lines 41-60), used by the merge command: call
`app_state.save_progress()` and then `shutdown_tx.send(())`.  It never
calls `AppState::request_shutdown`, so `shutdown_requested` is left
unchanged. -/
def signalHandlerInterrupt (st : SysState) : SysState :=
  { st with storage := st.progress.save st.storage, broadcastSent := true }

/-- The Ctrl+C closure installed inline by the resume branch of `main`
(src/main.rs lines 125-140): call `state.save_progress()` and then
`state.request_shutdown()`, which sets the shared flag. -/
def resumeHandlerInterrupt (st : SysState) : SysState :=
  { st with storage := st.progress.save st.storage, shutdownRequested := true }

/-! ### Order optimizer (src/core.rs `optimize_processing_order`,
lines 447-471) -/

/-- The comparator `|a, b| b.1.cmp(&a.1)` passed to `sort_by`: files are
ordered by decreasing byte size. -/
def sizeDescLe (a b : String × Nat) : Bool := decide (b.2 ≤ a.2)

/-- `optimize_processing_order` (src/core.rs lines 447-471): sort the
`(path, size)` pairs by size descending (`sort_by`, a stable merge sort),
then in one pass push each path into the small (< 100MB), medium
(< 1000MB) or large bucket, and return large ++ medium ++ small.
`opoStep` is the body of that bucketing pass: the accumulator is the
triple (small, medium, large). -/
def opoStep (acc : List String × List String × List String)
    (fp : String × Nat) : List String × List String × List String :=
  if fp.2 < 1024 * 1024 * 100 then (acc.1 ++ [fp.1], acc.2.1, acc.2.2)
  else if fp.2 < 1024 * 1024 * 1000 then (acc.1, acc.2.1 ++ [fp.1], acc.2.2)
  else (acc.1, acc.2.1, acc.2.2 ++ [fp.1])

def optimize_processing_order (files : List (String × Nat)) : List String :=
  let sorted_files := files.mergeSort sizeDescLe
  let part := sorted_files.foldl opoStep ([], [], [])
  part.2.2 ++ part.2.1 ++ part.1

/-- Specification-side bucket predicate: a small file (< 100 MB). -/
def isSmallFile (fp : String × Nat) : Bool := decide (fp.2 < 1024 * 1024 * 100)

/-- Specification-side bucket predicate: a medium file (≥ 100 MB and
< 1 GB, the latter written `1024 * 1024 * 1000` in the source). -/
def isMediumFile (fp : String × Nat) : Bool :=
  decide (1024 * 1024 * 100 ≤ fp.2 ∧ fp.2 < 1024 * 1024 * 1000)

/-- Specification-side bucket predicate: a large file (≥ 1 GB). -/
def isLargeFile (fp : String × Nat) : Bool := decide (1024 * 1024 * 1000 ≤ fp.2)

/-! ### Encoding detection (src/encoding/mod.rs, src/encoding/detector.rs)

The statistical guesser (`chardetng`) and the `encoding_rs` decoders are
external libraries; the model abstracts them as parameters `guess` (the
guess chardetng returns for a sample) and `decodeFn` (decoding a sample
with an encoding, returning the decoded text and the
`had_errors` flag), so every theorem about this model holds for every
behaviour of those libraries. -/

/-- The encodings the program mentions, plus `other` for whatever else
the statistical guesser may answer. -/
inductive Enc where
  | utf8
  | windows1252
  | iso8859_15
  | iso8859_2
  | other (nm : String)
deriving DecidableEq

/-- `EncodingStrategy` from src/encoding/strategies.rs. -/
inductive EncodingStrategy where
  | autoDetect
  | forceEncoding (e : Enc)
  | trySequence (es : List Enc)

/-- The filesystem seen by the detector: `meta` is the metadata (byte
length) query, `content` the readable bytes; `none` models an I/O
failure of that operation. -/
structure FileSys where
  meta : String → Option Nat
  content : String → Option (List Nat)

/-- `EncodingDetector::read_sample` (src/encoding/detector.rs lines
66-84): open and read up to `DETECTION_SAMPLE_SIZE` bytes, propagating
I/O failures. -/
def read_sample (fs : FileSys) (path : String) : Except Unit (List Nat) :=
  match fs.content path with
  | none => Except.error ()
  | some bytes => Except.ok (bytes.take DETECTION_SAMPLE_SIZE)

/-- `EncodingDetector::detect_with_chardetng` (lines 87-91): feed the
sample to chardetng and return its guess — always `Some`. -/
def detect_with_chardetng (guess : List Nat → Enc) (sample : List Nat) :
    Option Enc :=
  some (guess sample)

/-- Rust `u8::is_ascii_alphanumeric` on a decoded character. -/
def isAsciiAlphanumeric (c : Char) : Bool :=
  decide ((0x30 ≤ c.toNat ∧ c.toNat ≤ 0x39) ∨ (0x41 ≤ c.toNat ∧ c.toNat ≤ 0x5A) ∨
    (0x61 ≤ c.toNat ∧ c.toNat ≤ 0x7A))

/-- Rust `char::is_ascii_punctuation`. -/
def isAsciiPunct (c : Char) : Bool :=
  decide ((0x21 ≤ c.toNat ∧ c.toNat ≤ 0x2F) ∨ (0x3A ≤ c.toNat ∧ c.toNat ≤ 0x40) ∨
    (0x5B ≤ c.toNat ∧ c.toNat ≤ 0x60) ∨ (0x7B ≤ c.toNat ∧ c.toNat ≤ 0x7E))

/-- `EncodingDetector::validate_encoding_with_sample` (lines 94-121):
reject when decoding reported errors, when more than 5% of the decoded
characters are NUL (the source compares `f32` ratios; the model uses the
exact rational comparison `null_count * 20 > total_chars`), and accept
only if some character is ASCII alphanumeric, ASCII punctuation or
whitespace. -/
def validate_encoding_with_sample (decodeFn : Enc → List Nat → List Char × Bool)
    (sample : List Nat) (e : Enc) : Bool :=
  let r := decodeFn e sample
  if r.2 then false
  else
    let text := r.1
    let nullCount := text.countP (fun c => c.toNat = 0)
    let totalChars := text.length
    if 0 < totalChars ∧ nullCount * 20 > totalChars then false
    else text.any (fun c =>
      isAsciiAlphanumeric c || isAsciiPunct c || isRustWhitespace c)

/-- `EncodingDetector::heuristic_detection` (lines 136-162): empty sample
⇒ UTF-8; UTF-8 byte-order-mark ⇒ UTF-8; valid UTF-8 ⇒ UTF-8; any byte
above 127 ⇒ Windows-1252; otherwise UTF-8.  Never an error. -/
def heuristic_detection (sample : List Nat) : Except Unit (Option Enc) :=
  if sample = [] then Except.ok (some Enc.utf8)
  else if 3 ≤ sample.length ∧ sample.take 3 = [0xEF, 0xBB, 0xBF] then
    Except.ok (some Enc.utf8)
  else if (utf8Decode sample).isSome then Except.ok (some Enc.utf8)
  else if sample.any (fun b => 127 < b) then Except.ok (some Enc.windows1252)
  else Except.ok (some Enc.utf8)

/-- `EncodingDetector::detect_file` (lines 34-63): metadata failure
propagates; very large files are assumed Windows-1252 without sampling;
empty files are UTF-8; otherwise sample the file (read failures
propagate), run chardetng, keep a validated guess, and fall back to the
heuristic. -/
def detect_file (guess : List Nat → Enc)
    (decodeFn : Enc → List Nat → List Char × Bool) (fs : FileSys)
    (path : String) : Except Unit (Option Enc) :=
  match fs.meta path with
  | none => Except.error ()
  | some len =>
    if MAX_DETECTION_FILE_SIZE < len then Except.ok (some Enc.windows1252)
    else if len = 0 then Except.ok (some Enc.utf8)
    else
      match read_sample fs path with
      | Except.error u => Except.error u
      | Except.ok sample =>
        match detect_with_chardetng guess sample with
        | some enc =>
          if validate_encoding_with_sample decodeFn sample enc then
            Except.ok (some enc)
          else heuristic_detection sample
        | none => heuristic_detection sample

/-- `EncodingDetector::validate_encoding` (lines 124-127): sample the
file and validate the given encoding against the sample. -/
def validate_encoding (decodeFn : Enc → List Nat → List Char × Bool)
    (fs : FileSys) (path : String) (e : Enc) : Except Unit Bool :=
  match read_sample fs path with
  | Except.error u => Except.error u
  | Except.ok s => Except.ok (validate_encoding_with_sample decodeFn s e)

/-- The acceptance test of the TrySequence loop: `if let Ok(true) =
validate_encoding(..)` — an I/O error from validation counts as not
validated (it is swallowed by the `if let`). -/
def tryValidates (decodeFn : Enc → List Nat → List Char × Bool)
    (fs : FileSys) (path : String) (enc : Enc) : Bool :=
  match validate_encoding decodeFn fs path enc with
  | Except.ok true => true
  | _ => false

/-- `EncodingHandler::detect_or_default` (src/encoding/mod.rs lines
64-133).  AutoDetect: use `detect_file`, falling back to Windows-1252
when it answers `None`.  ForceEncoding: return the forced encoding.
TrySequence: return the first encoding that validates (`tryValidates`),
else Windows-1252.  Statistics recording and logging have no effect on
the returned value and are not modelled. -/
def detect_or_default (strategy : EncodingStrategy)
    (guess : List Nat → Enc) (decodeFn : Enc → List Nat → List Char × Bool)
    (fs : FileSys) (path : String) : Except Unit Enc :=
  match strategy with
  | EncodingStrategy.autoDetect =>
    match detect_file guess decodeFn fs path with
    | Except.error u => Except.error u
    | Except.ok (some detected) => Except.ok detected
    | Except.ok none => Except.ok Enc.windows1252
  | EncodingStrategy.forceEncoding enc => Except.ok enc
  | EncodingStrategy.trySequence encodings =>
    match encodings.find? (tryValidates decodeFn fs path) with
    | some enc => Except.ok enc
    | none => Except.ok Enc.windows1252

/-! ### Concrete inputs used by the evaluation theorems -/

/-- The UTF-8 bytes of `café` with no trailing newline. -/
def cafeBytes : List Nat := [0x63, 0x61, 0x66, 0xC3, 0xA9]

/-- A line-count oracle for two input files: `a.txt` has 2 lines and
`b.txt` has 3. -/
def c2LineCount : String → Option Nat := fun f =>
  if f = "a.txt" then some 2 else if f = "b.txt" then some 3 else none

/-- A loaded checkpoint: `a.txt` already fully processed (2 lines), save
path attached by `Progress::load`. -/
def c2Checkpoint : Progress :=
  ⟨"files.txt", "out.txt", 10, ["a.txt"], 2, some ("progress.json")⟩

/-- The empty checkpoint storage. -/
def emptyStorage : Storage := fun _ => none

/-- The shared state of a fresh merge run right after start-up:
default progress, no checkpoints written, flag down, nothing
broadcast. -/
def c3MergeState : SysState := ⟨Progress.defaultState, emptyStorage, false, false⟩

/-- A fresh-run progress record after its first file completion: the
mutation happened, but `save_path` is still `none` because
`Progress::default` set it so and the merge path never sets it. -/
def c4FreshState : Progress := ⟨"files.txt", "out.txt", 10, ["a.txt"], 2, none⟩

/-! ### Proof-side auxiliary definitions -/

/-- The at-most-one-element set of lines a single chunk contributes. -/
def chunkSet (c : List Nat) : Finset (List Char) :=
  match chunkLine c with
  | some t => {t}
  | none => ∅

/-- Everything a `process_large_file` loop state holds: batches already
sent plus the current set. -/
def collectedUnion (st : PlfState) : Finset (List Char) :=
  batchUnion st.batches ∪ st.cur

/-- The loop invariant of `process_large_file` for capacity `cs`: the
current set stays strictly below the capacity at every loop head, every
recorded before/after-insertion set is within the capacity, and every
batch sent so far is within the capacity. -/
def PlfInv (cs : Nat) (st : PlfState) : Prop :=
  st.cur.card < cs ∧
  (∀ pr ∈ st.seen, pr.1.card ≤ cs ∧ pr.2.card ≤ cs) ∧
  (∀ b ∈ st.batches, b.card ≤ cs)

end Rustmerger

namespace Rustmerger

/-! ## Helper lemmas -/

theorem decodeStrList_map (l : List String) :
    decodeStrList (l.map Json.str) = some l := by
  induction l with
  | nil => rfl
  | cons a t ih => simp [decodeStrList, decodeStr, ih]

theorem decodeOptPath_encode (sp : Option String) :
    decodeOptPath (encodeOptPath sp) = some sp := by
  cases sp <;> rfl

theorem decodeProgress_encodeProgress (st : Progress) :
    decodeProgress (encodeProgress st) = some st := by
  cases st with
  | mk i o t pl c sp =>
    simp [decodeProgress, encodeProgress, jsonLookup, decodeStr, decodeNum,
      decodePathList, decodeStrList_map, decodeOptPath_encode,
      encodeProgress.keyInput, encodeProgress.keyOutput,
      encodeProgress.keyThreads, encodeProgress.keyProcessed,
      encodeProgress.keyPosition, encodeProgress.keySavePath]

/-! ## Claim theorems -/

/-- C1 (status: code bug), behaviour of the code at the failing input.
The claim says every trimmed nonempty line of a successfully read and
decoded input file appears exactly once in the final output set.  For
the one-file input whose content is the single byte `a` with no trailing
newline, the file's only line is `a`, yet `merge_and_deduplicate`
produces the empty set: `process_large_file` removes the final byte of
the chunk (`buffer[..n - 1]`), leaving the empty string, which is
discarded. -/
theorem C1_code_eval :
    mergeOutput [[0x61]] 100 = ∅ ∧ ['a'] ∉ mergeOutput [[0x61]] 100 ∧
    spec_file_lines [0x61] = [['a']] := by
  decide

/-- C2 (status: code bug), behaviour of the code at the failing input.
The claim says a run started from a loaded checkpoint skips every path
already in `processed_files`.  Starting from a checkpoint that records
`a.txt` (2 lines) as processed, the loop of `ProcessingCore::process`
over the input list `[a.txt, b.txt]` re-processes `a.txt`: it appears
twice in `processed_files` afterwards and its lines are counted into
`current_position` again (2 + 2 + 3 = 7). -/
theorem C2_code_eval :
    (processFiles false c2LineCount ["a.txt", "b.txt"] c2Checkpoint).processed_files
      = ["a.txt", "a.txt", "b.txt"] ∧
    (processFiles false c2LineCount ["a.txt", "b.txt"] c2Checkpoint).current_position = 7 ∧
    List.count ("a.txt")
      (processFiles false c2LineCount ["a.txt", "b.txt"] c2Checkpoint).processed_files = 2 := by
  decide

/-- C3 (status: code bug), behaviour of the code at the failing input.
The claim says that after the interrupt signal is handled, the shared
ShutdownFlag is set and `should_shutdown` returns true.  The Ctrl+C
closure of `SignalHandler::setup_handlers` (used by the merge command)
saves progress and sends a broadcast message, but never calls
`AppState::request_shutdown`, so `should_shutdown` still returns false
afterwards. -/
theorem C3_code_eval :
    should_shutdown (signalHandlerInterrupt c3MergeState) = false ∧
    (signalHandlerInterrupt c3MergeState).broadcastSent = true := by
  exact ⟨rfl, rfl⟩

/-- C4 (status: corrected), counterexample to the claim as stated.  The
claim says the save operation writes the serialized state for every
value of the state, on every run fresh or resumed.  For a fresh-run
state after its first mutation (`save_path = none`, as set by
`Progress::default`), `Progress::save` writes nothing: the storage is
unchanged and still holds no checkpoint. -/
theorem C4_counterexample :
    c4FreshState.save emptyStorage = emptyStorage ∧
    c4FreshState.save emptyStorage ("progress.json") = none := by
  exact ⟨rfl, rfl⟩

/-- C4 (status: corrected), the amended claim: `Progress::save` writes
the serialized state to the configured save path whenever one is
configured (`save_path = some p`, as after `Progress::load`); with no
save path configured it writes nothing (see the counterexample). -/
theorem C4_save_writes_when_configured (st : Progress) (σ : Storage)
    (p : String) (h : st.save_path = some p) :
    st.save σ = fun q => if q = p then some (encodeProgress st) else σ q := by
  unfold Progress.save
  rw [h]

/-- Witness for C4: the amended theorem applied to a concrete checkpoint
with a configured save path. -/
theorem C4_witness :
    c2Checkpoint.save emptyStorage
      = fun q => if q = "progress.json" then some (encodeProgress c2Checkpoint)
          else emptyStorage q :=
  C4_save_writes_when_configured c2Checkpoint emptyStorage ("progress.json") rfl

/-- C7 (status: confirmed): the checkpoint round-trips exactly through
save and load.  For every progress state whose save path is configured,
saving and then loading from that path reconstructs the state — same
input file, output file, thread count, processed-files list in order,
current position — with the save path re-attached. -/
theorem C7_roundtrip (st : Progress) (p : String) (σ : Storage)
    (h : st.save_path = some p) :
    Progress.load p (st.save σ) = some st := by
  cases st with
  | mk i o t pl c sp =>
    simp only [Progress.mk.injEq] at h ⊢
    have hsp : sp = some p := h
    subst hsp
    simp [Progress.save, Progress.load, decodeProgress_encodeProgress]

/-- Witness for C7: round-trip of a concrete checkpoint. -/
theorem C7_witness :
    Progress.load ("progress.json") (c2Checkpoint.save emptyStorage)
      = some c2Checkpoint :=
  C7_roundtrip c2Checkpoint ("progress.json") emptyStorage rfl

/-- C9 (status: corrected), counterexample to the claim as stated.  The
claim says that for every file whose last line is unterminated, the last
line is inserted with its final character missing.  For the file whose
converted content is the UTF-8 bytes of `café` with no trailing newline,
that would put `caf` in the batch; instead, removing the final byte
splits the two-byte encoding of the final character, `String::from_utf8`
fails, and the whole line is discarded: the output is empty. -/
theorem C9_counterexample :
    utf8Decode cafeBytes = some ['c', 'a', 'f', 'é'] ∧
    ['c', 'a', 'f'] ∉ plfUnion cafeBytes 100 ∧
    plfUnion cafeBytes 100 = ∅ := by
  decide

theorem batchUnion_cons (a : Finset (List Char))
    (t : List (Finset (List Char))) :
    batchUnion (a :: t) = a ∪ batchUnion t := by
  induction t generalizing a with
  | nil => simp [batchUnion]
  | cons b t ih =>
    calc batchUnion (a :: b :: t) = batchUnion ((a ∪ b) :: t) := by
          simp [batchUnion]
      _ = (a ∪ b) ∪ batchUnion t := ih (a ∪ b)
      _ = a ∪ ((b ∪ batchUnion t)) := Finset.union_assoc a b (batchUnion t)
      _ = a ∪ batchUnion (b :: t) := by rw [ih b]

theorem mem_batchUnion (x : List Char) (l : List (Finset (List Char))) :
    x ∈ batchUnion l ↔ ∃ s ∈ l, x ∈ s := by
  induction l with
  | nil => simp [batchUnion]
  | cons a t ih => rw [batchUnion_cons]; simp [ih]

theorem batchUnion_append (l₁ l₂ : List (Finset (List Char))) :
    batchUnion (l₁ ++ l₂) = batchUnion l₁ ∪ batchUnion l₂ := by
  induction l₁ with
  | nil => simp [batchUnion]
  | cons a t ih =>
    rw [List.cons_append, batchUnion_cons, batchUnion_cons, ih,
      Finset.union_assoc]

theorem mem_collected_step (cs : Nat) (st : PlfState) (c : List Nat)
    (x : List Char) :
    x ∈ collectedUnion (plfStep cs st c) ↔
      x ∈ collectedUnion st ∨ chunkLine c = some x := by
  unfold plfStep plfCur1 collectedUnion
  cases hcl : chunkLine c <;> simp only [hcl] <;> split <;>
    simp [batchUnion_append, batchUnion_cons, batchUnion, Finset.mem_insert,
      eq_comm] <;>
    tauto

theorem mem_collected_foldl (cs : Nat) (chunks : List (List Nat))
    (st : PlfState) (x : List Char) :
    x ∈ collectedUnion (chunks.foldl (plfStep cs) st) ↔
      x ∈ collectedUnion st ∨ ∃ c ∈ chunks, chunkLine c = some x := by
  induction chunks generalizing st with
  | nil => simp
  | cons c t ih =>
    rw [List.foldl_cons, ih, mem_collected_step]
    simp only [List.mem_cons]
    constructor
    · rintro (⟨h | h⟩ | ⟨d, hd, hx⟩)
      · exact Or.inl h
      · exact Or.inr ⟨c, Or.inl rfl, h⟩
      · exact Or.inr ⟨d, Or.inr hd, hx⟩
    · rintro (h | ⟨d, hd | hd, hx⟩)
      · exact Or.inl (Or.inl h)
      · exact Or.inl (Or.inr (hd ▸ hx))
      · exact Or.inr ⟨d, hd, hx⟩

theorem plfUnion_eq_collected (content : List Nat) (cs : Nat) :
    plfUnion content cs = collectedUnion (processLargeFile content cs) := by
  unfold plfUnion plfBatches collectedUnion
  by_cases h : (processLargeFile content cs).cur = ∅
  · simp [h]
  · simp [h, batchUnion_append, batchUnion_cons, batchUnion]

/-- C9 (status: corrected), the amended claim.  Every chunk returned by
`read_until` has exactly its final byte removed before UTF-8 parsing
(the `c.dropLast` inside `chunkLine`): a line belongs to the emitted
batches of `process_large_file` exactly when some chunk of the file,
with its final byte removed, parses as UTF-8 and trims to that nonempty
line.  Consequently an unterminated final line reaches the batch with
its final byte missing only when the truncated bytes are still valid
UTF-8 (in particular when its final character is one byte), a
one-character final line becomes empty and is discarded, and a final
line whose last character is multi-byte is discarded entirely (see the
counterexample). -/
theorem C9_amended_truncation (content : List Nat) (chunkSize : Nat)
    (l : List Char) :
    l ∈ plfUnion content chunkSize ↔
      ∃ c ∈ splitChunks content, chunkLine c = some l := by
  rw [plfUnion_eq_collected]
  unfold processLargeFile
  rw [mem_collected_foldl]
  simp [collectedUnion, plfInit, batchUnion]

theorem plfStep_inv (cs : Nat) (h1 : 1 ≤ cs) (st : PlfState) (c : List Nat)
    (h : PlfInv cs st) : PlfInv cs (plfStep cs st c) := by
  obtain ⟨hcur, hseen, hb⟩ := h
  have hcur1 : (plfCur1 st c).card ≤ cs := by
    unfold plfCur1
    cases chunkLine c with
    | some t =>
      exact le_trans (Finset.card_insert_le t st.cur) (by omega)
    | none => exact le_of_lt hcur
  have hseen1 : ∀ pr ∈ st.seen ++ [(st.cur, plfCur1 st c)],
      pr.1.card ≤ cs ∧ pr.2.card ≤ cs := by
    intro pr hpr
    rcases List.mem_append.mp hpr with hold | hnew
    · exact hseen pr hold
    · rw [List.mem_singleton] at hnew
      subst hnew
      exact ⟨le_of_lt hcur, hcur1⟩
  unfold plfStep
  split
  · refine ⟨?_, hseen1, ?_⟩
    · show (∅ : Finset (List Char)).card < cs
      simpa using h1
    · intro b hbm
      have hbm2 : b ∈ st.batches ++ [plfCur1 st c] := hbm
      rcases List.mem_append.mp hbm2 with hold | hnew
      · exact hb b hold
      · rw [List.mem_singleton] at hnew
        subst hnew
        exact hcur1
  · rename_i hcond
    push_neg at hcond
    exact ⟨hcond.2, hseen1, hb⟩

theorem plf_foldl_inv (cs : Nat) (h1 : 1 ≤ cs) (chunks : List (List Nat))
    (st : PlfState) (h : PlfInv cs st) :
    PlfInv cs (chunks.foldl (plfStep cs) st) := by
  induction chunks generalizing st with
  | nil => exact h
  | cons c t ih => exact ih _ (plfStep_inv cs h1 st c h)

/-- C5 (status: confirmed): throughout the chunk-reading loop of
`process_large_file`, the current batch set never holds more lines than
the computed capacity `batch_size`: for every file content and every
loop iteration, the set's cardinality is at most the capacity both
before and after each insertion (the ghost pairs recorded in `seen`),
because the set is handed to the channel as soon as the capacity or the
byte threshold is reached — so every batch handed to the channel is
within capacity as well.  The standing hypothesis `1 ≤ batch_size` holds
for every memory report of at least one kilobyte
(`computeBatchSize 1 = 21`). -/
theorem C5_batch_capacity (content : List Nat) (availKB : Nat)
    (h : 1 ≤ computeBatchSize availKB) :
    (∀ pr ∈ (processLargeFile content (computeBatchSize availKB)).seen,
      pr.1.card ≤ computeBatchSize availKB ∧
      pr.2.card ≤ computeBatchSize availKB) ∧
    (∀ b ∈ plfBatches content (computeBatchSize availKB),
      b.card ≤ computeBatchSize availKB) := by
  have hinit : PlfInv (computeBatchSize availKB) plfInit := by
    refine ⟨?_, ?_, ?_⟩ <;> simp [plfInit]
    omega
  have hinv := plf_foldl_inv (computeBatchSize availKB) h
    (splitChunks content) plfInit hinit
  obtain ⟨hcur, hseen, hb⟩ := hinv
  refine ⟨hseen, ?_⟩
  intro b hbm
  unfold plfBatches at hbm
  by_cases hc : (processLargeFile content (computeBatchSize availKB)).cur = ∅
  · simp only [processLargeFile] at hc hbm ⊢
    rw [if_pos hc] at hbm
    exact hb b hbm
  · simp only [processLargeFile] at hc hbm ⊢
    rw [if_neg hc] at hbm
    rcases List.mem_append.mp hbm with hold | hnew
    · exact hb b hold
    · rw [List.mem_singleton] at hnew
      subst hnew
      exact le_of_lt hcur

/-- Witness for C5: the capacity computed from a 1 MB memory report is
positive, and the bound holds for the concrete two-line file
`a\nb\n`. -/
theorem C5_witness :
    1 ≤ computeBatchSize 1024 ∧
    ((∀ pr ∈ (processLargeFile [97, 10, 98, 10] (computeBatchSize 1024)).seen,
      pr.1.card ≤ computeBatchSize 1024 ∧
      pr.2.card ≤ computeBatchSize 1024) ∧
    (∀ b ∈ plfBatches [97, 10, 98, 10] (computeBatchSize 1024),
      b.card ≤ computeBatchSize 1024)) :=
  ⟨by decide, C5_batch_capacity [97, 10, 98, 10] 1024 (by decide)⟩

theorem opoStep_foldl (l : List (String × Nat)) (s m g : List String) :
    l.foldl opoStep (s, m, g) =
      (s ++ (l.filter isSmallFile).map Prod.fst,
       m ++ (l.filter isMediumFile).map Prod.fst,
       g ++ (l.filter isLargeFile).map Prod.fst) := by
  induction l generalizing s m g with
  | nil => simp
  | cons a t ih =>
    rw [List.foldl_cons]
    by_cases h1 : a.2 < 1024 * 1024 * 100
    · have hs : isSmallFile a = true := by simpa [isSmallFile] using h1
      have hm : isMediumFile a = false := by
        simp only [isMediumFile, decide_eq_false_iff_not]
        omega
      have hg : isLargeFile a = false := by
        simp only [isLargeFile, decide_eq_false_iff_not]
        omega
      rw [show opoStep (s, m, g) a = (s ++ [a.1], m, g) from by
        simp [opoStep, h1]]
      rw [ih]
      simp [List.filter_cons, hs, hm, hg]
    · by_cases h2 : a.2 < 1024 * 1024 * 1000
      · have hs : isSmallFile a = false := by
          simp only [isSmallFile, decide_eq_false_iff_not]
          omega
        have hm : isMediumFile a = true := by
          simp only [isMediumFile, decide_eq_true_eq]
          omega
        have hg : isLargeFile a = false := by
          simp only [isLargeFile, decide_eq_false_iff_not]
          omega
        rw [show opoStep (s, m, g) a = (s, m ++ [a.1], g) from by
          simp [opoStep, h1, h2]]
        rw [ih]
        simp [List.filter_cons, hs, hm, hg]
      · have hs : isSmallFile a = false := by
          simp only [isSmallFile, decide_eq_false_iff_not]
          omega
        have hm : isMediumFile a = false := by
          simp only [isMediumFile, decide_eq_false_iff_not]
          omega
        have hg : isLargeFile a = true := by
          simp only [isLargeFile, decide_eq_true_eq]
          omega
        rw [show opoStep (s, m, g) a = (s, m, g ++ [a.1]) from by
          simp [opoStep, h1, h2]]
        rw [ih]
        simp [List.filter_cons, hs, hm, hg]

theorem opo_eq (files : List (String × Nat)) :
    optimize_processing_order files =
      ((files.mergeSort sizeDescLe).filter isLargeFile).map Prod.fst ++
      ((files.mergeSort sizeDescLe).filter isMediumFile).map Prod.fst ++
      ((files.mergeSort sizeDescLe).filter isSmallFile).map Prod.fst := by
  show (List.foldl opoStep ([], [], []) (files.mergeSort sizeDescLe)).2.2 ++
    (List.foldl opoStep ([], [], []) (files.mergeSort sizeDescLe)).2.1 ++
    (List.foldl opoStep ([], [], []) (files.mergeSort sizeDescLe)).1 = _
  rw [opoStep_foldl]
  simp

theorem mergeSort_sizeDesc (files : List (String × Nat)) :
    List.Pairwise (fun a b : String × Nat => b.2 ≤ a.2)
      (files.mergeSort sizeDescLe) := by
  have htrans : ∀ a b c : String × Nat, sizeDescLe a b = true →
      sizeDescLe b c = true → sizeDescLe a c = true := by
    intro a b c hab hbc
    simp only [sizeDescLe, decide_eq_true_eq] at hab hbc ⊢
    omega
  have htotal : ∀ a b : String × Nat,
      (sizeDescLe a b || sizeDescLe b a) = true := by
    intro a b
    simp only [sizeDescLe, Bool.or_eq_true, decide_eq_true_eq]
    omega
  have h := List.sorted_mergeSort htrans htotal files
  exact h.imp (by
    intro a b hab
    simpa [sizeDescLe] using hab)

/-- C6 (status: confirmed): `optimize_processing_order` returns the
paths partitioned into the three buckets — small (< 100 MB), medium
(< 1 GB, written `1024 * 1024 * 1000` bytes in the source), large
(≥ 1 GB) — with the large bucket first, then medium, then small, and
with larger files before smaller files: the bucket concatenation is
sorted by non-increasing size. -/
theorem C6_bucket_order (files : List (String × Nat)) :
    optimize_processing_order files =
      ((files.mergeSort sizeDescLe).filter isLargeFile).map Prod.fst ++
      ((files.mergeSort sizeDescLe).filter isMediumFile).map Prod.fst ++
      ((files.mergeSort sizeDescLe).filter isSmallFile).map Prod.fst ∧
    List.Pairwise (fun a b : String × Nat => b.2 ≤ a.2)
      ((files.mergeSort sizeDescLe).filter isLargeFile ++
       (files.mergeSort sizeDescLe).filter isMediumFile ++
       (files.mergeSort sizeDescLe).filter isSmallFile) := by
  refine ⟨opo_eq files, ?_⟩
  have hp := mergeSort_sizeDesc files
  rw [List.pairwise_append, List.pairwise_append]
  refine ⟨⟨List.Pairwise.sublist (List.filter_sublist _) hp,
    List.Pairwise.sublist (List.filter_sublist _) hp, ?_⟩,
    List.Pairwise.sublist (List.filter_sublist _) hp, ?_⟩
  · intro a ha b hb
    have ha2 := (List.mem_filter.mp ha).2
    have hb2 := (List.mem_filter.mp hb).2
    simp only [isLargeFile, isMediumFile, decide_eq_true_eq] at ha2 hb2
    omega
  · intro a ha b hb
    have hb2 := (List.mem_filter.mp hb).2
    simp only [isSmallFile, decide_eq_true_eq] at hb2
    rw [List.mem_append] at ha
    rcases ha with ha | ha
    · have ha2 := (List.mem_filter.mp ha).2
      simp only [isLargeFile, decide_eq_true_eq] at ha2
      omega
    · have ha2 := (List.mem_filter.mp ha).2
      simp only [isMediumFile, decide_eq_true_eq] at ha2
      omega

theorem three_filter_perm (l : List (String × Nat)) :
    (l.filter isLargeFile ++ l.filter isMediumFile ++
      l.filter isSmallFile).Perm l := by
  induction l with
  | nil => simp
  | cons a t ih =>
    by_cases h1 : a.2 < 1024 * 1024 * 100
    · have hs : isSmallFile a = true := by simpa [isSmallFile] using h1
      have hm : isMediumFile a = false := by
        simp only [isMediumFile, decide_eq_false_iff_not]
        omega
      have hg : isLargeFile a = false := by
        simp only [isLargeFile, decide_eq_false_iff_not]
        omega
      simp only [List.filter_cons, hs, hm, hg, if_true, if_false,
        Bool.false_eq_true]
      exact List.Perm.trans List.perm_middle (ih.cons a)
    · by_cases h2 : a.2 < 1024 * 1024 * 1000
      · have hs : isSmallFile a = false := by
          simp only [isSmallFile, decide_eq_false_iff_not]
          omega
        have hm : isMediumFile a = true := by
          simp only [isMediumFile, decide_eq_true_eq]
          omega
        have hg : isLargeFile a = false := by
          simp only [isLargeFile, decide_eq_false_iff_not]
          omega
        simp only [List.filter_cons, hs, hm, hg, if_true, if_false,
          Bool.false_eq_true]
        rw [List.append_assoc, List.cons_append]
        refine List.Perm.trans List.perm_middle ?_
        rw [← List.append_assoc]
        exact ih.cons a
      · have hs : isSmallFile a = false := by
          simp only [isSmallFile, decide_eq_false_iff_not]
          omega
        have hm : isMediumFile a = false := by
          simp only [isMediumFile, decide_eq_false_iff_not]
          omega
        have hg : isLargeFile a = true := by
          simp only [isLargeFile, decide_eq_true_eq]
          omega
        simp only [List.filter_cons, hs, hm, hg, if_true, if_false,
          Bool.false_eq_true]
        rw [List.cons_append, List.cons_append]
        exact ih.cons a

/-- C10 (status: confirmed): `optimize_processing_order` returns a
permutation of its input paths — every input path occurs in the output
exactly as many times as in the input, and no other path occurs. -/
theorem C10_permutation (files : List (String × Nat)) (p : String) :
    List.count p (optimize_processing_order files)
      = List.count p (files.map Prod.fst) := by
  rw [opo_eq]
  have hperm :
      (((files.mergeSort sizeDescLe).filter isLargeFile ++
        (files.mergeSort sizeDescLe).filter isMediumFile ++
        (files.mergeSort sizeDescLe).filter isSmallFile).map Prod.fst).Perm
        (files.map Prod.fst) :=
    List.Perm.map Prod.fst
      ((three_filter_perm (files.mergeSort sizeDescLe)).trans
        (List.mergeSort_perm files sizeDescLe))
  rw [← List.map_append, ← List.map_append]
  exact hperm.count_eq p

theorem heuristic_ok (sample : List Nat) :
    ∃ e, heuristic_detection sample = Except.ok (some e) := by
  unfold heuristic_detection
  split_ifs <;> exact ⟨_, rfl⟩

/-- C8 (status: confirmed): encoding detection never fails outright.
For every strategy, every behaviour of the statistical guesser and of
the decoders, every filesystem and every path, `detect_or_default`
either returns some encoding (via detection, validation, the heuristic,
or the Windows-1252 fallback), or returns an error — and an error occurs
only when a filesystem I/O operation on the file (the metadata read or
the sample read) fails. -/
theorem C8_detection_total (strategy : EncodingStrategy)
    (guess : List Nat → Enc) (decodeFn : Enc → List Nat → List Char × Bool)
    (fs : FileSys) (path : String) :
    (∃ e, detect_or_default strategy guess decodeFn fs path = Except.ok e) ∨
    (detect_or_default strategy guess decodeFn fs path = Except.error () ∧
      (fs.meta path = none ∨ fs.content path = none)) := by
  cases strategy with
  | forceEncoding enc => exact Or.inl ⟨enc, rfl⟩
  | trySequence encodings =>
    left
    unfold detect_or_default
    dsimp only
    cases hfind : encodings.find? (tryValidates decodeFn fs path) with
    | none => exact ⟨Enc.windows1252, rfl⟩
    | some enc => exact ⟨enc, rfl⟩
  | autoDetect =>
    unfold detect_or_default detect_file read_sample detect_with_chardetng
    cases hm : fs.meta path with
    | none => exact Or.inr ⟨rfl, Or.inl rfl⟩
    | some len =>
      dsimp only
      split_ifs with hbig hzero
      · exact Or.inl ⟨Enc.windows1252, rfl⟩
      · exact Or.inl ⟨Enc.utf8, rfl⟩
      · cases hc : fs.content path with
        | none => exact Or.inr ⟨rfl, Or.inr rfl⟩
        | some bytes =>
          dsimp only
          by_cases hv : validate_encoding_with_sample decodeFn
            (bytes.take DETECTION_SAMPLE_SIZE)
            (guess (bytes.take DETECTION_SAMPLE_SIZE)) = true
          · left
            refine ⟨guess (bytes.take DETECTION_SAMPLE_SIZE), ?_⟩
            simp only [hv, if_true]
          · left
            obtain ⟨e, he⟩ := heuristic_ok (bytes.take DETECTION_SAMPLE_SIZE)
            refine ⟨e, ?_⟩
            simp only [Bool.not_eq_true] at hv
            simp only [hv, Bool.false_eq_true, if_false, he]

end Rustmerger
